import Mathlib

/-!
Verification of the coordinate-and-text reconciliation engine of a
browser PDF editor (single component file: src/components/PdfEditor.vue).

The engine is shallowly embedded over an arbitrary linear ordered field,
so every arithmetic definition is executable at rational inputs; the one
genuinely irrational operation of the source, the square root used to
derive a font size from a glyph transform, is a parameter of the
extraction and is instantiated with Real.sqrt in the statements about it.
-/

namespace VibePdf

/-- A 2D point. -/
structure Pt (R : Type) where
  x : R
  y : R
  deriving DecidableEq

/-- A six-entry affine transform in pdf.js order: the entries m0..m5 stand
for the JavaScript array positions transform[0]..transform[5]. -/
structure Transform6 (R : Type) where
  m0 : R
  m1 : R
  m2 : R
  m3 : R
  m4 : R
  m5 : R
  deriving DecidableEq

/-- One raw text-content item as delivered by the rasterizer collaborator
(pdf.js getTextContent): text, glyph transform, advance width, glyph box
height, font name. -/
structure SrcTextItem (R : Type) where
  str : String
  transform : Transform6 R
  width : R
  height : R
  fontName : String
  deriving DecidableEq

/-- An extracted, positioned text run as built by extractTextItems. -/
structure TextRun (R : Type) where
  id : String
  index : Nat
  originalText : String
  text : String
  x : R
  y : R
  width : R
  height : R
  fontSize : R
  page : Nat
  isEdited : Bool
  fontName : String
  pdfX : R
  pdfY : R
  pdfFontSize : R
  pdfWidth : R
  pdfHeight : R
  isEditing : Bool := false
  deriving DecidableEq

/-- One pending edit, as stored by finishEditingTextItem in the
editedTextItems map: new text plus the frozen original geometry and page. -/
structure EditEntry (R : Type) where
  text : String
  originalText : String
  pdfX : R
  pdfY : R
  pdfFontSize : R
  pdfWidth : R
  pdfHeight : R
  fontName : String
  page : Nat
  deriving DecidableEq

/-- The Edit Ledger: the reactive editedTextItems object, modelled as an
insertion-ordered association list keyed by the run id, which is exactly
the enumeration behaviour of a JavaScript object with string keys. -/
abbrev Ledger (R : Type) : Type := List (String × EditEntry R)

/-- A user-created text overlay (textOverlays element). -/
structure Overlay (R : Type) where
  id : Nat
  x : R
  y : R
  text : String
  fontSize : R
  color : String
  backgroundColor : String
  bgEnabled : Bool
  bgWidth : R
  bgHeight : R
  page : Nat
  isEditing : Bool
  deriving DecidableEq

/-- An RGB color with components in the unit interval, as produced by
pdf-lib's rgb(r, g, b). -/
structure Col (R : Type) where
  r : R
  g : R
  b : R
  deriving DecidableEq

/-- One drawing command issued against the fresh document copy at save
time: page.drawRectangle or page.drawText of pdf-lib.  The page field is
the 1-based page number the source hands to getPage(page - 1). -/
inductive DrawOp (R : Type) where
  | rect (page : Nat) (x y w h : R) (color : Col R)
  | text (page : Nat) (str : String) (x y size : R) (fontName : String) (color : Col R)
  deriving DecidableEq

/-- The metrics interface of the embedded substitute font: pdf-lib's
heightAtSize(size) and heightAtSize(size, with descender suppressed). -/
structure EmbFont (R : Type) where
  heightAtSize : R → R
  heightAtSizeNoDescender : R → R

/-- The name of the fixed substitute font the source embeds for all
edited and added text (StandardFonts.Helvetica). -/
def helveticaName : String := "Helvetica"

/-- An uploaded file: name and raw bytes. -/
structure FileInput where
  name : String
  bytes : List Nat
  deriving DecidableEq

/-- The per-session reactive state of the component: the refs declared at
the top of the script block that the claims are about. -/
structure SessionState (R : Type) where
  pdfDocLoaded : Bool
  pdfBytes : Option (List Nat)
  currentPage : Nat
  totalPages : Nat
  scale : R
  textOverlays : List (Overlay R)
  isLoading : Bool
  fileName : String
  selectedOverlay : Option Nat
  existingTextItems : List (TextRun R)
  editedTextItems : Ledger R
  selectedTextItem : Option String
  deriving DecidableEq

section Ops

variable {R : Type} [LinearOrderedField R]

/-- The initial values of the component refs: pdfDoc = null,
pdfBytes = null, currentPage = 1, totalPages = 0, scale = 1.5, empty
overlay list, not loading, empty file name, nothing selected, no
extracted items, empty edit map. -/
def initSession : SessionState R where
  pdfDocLoaded := false
  pdfBytes := none
  currentPage := 1
  totalPages := 0
  scale := 3 / 2
  textOverlays := []
  isLoading := false
  fileName := ""
  selectedOverlay := none
  existingTextItems := []
  editedTextItems := []
  selectedTextItem := none

/-- pdf.js Util.transform: composition of two affine transforms. -/
def utilTransform (u v : Transform6 R) : Transform6 R where
  m0 := u.m0 * v.m0 + u.m2 * v.m1
  m1 := u.m1 * v.m0 + u.m3 * v.m1
  m2 := u.m0 * v.m2 + u.m2 * v.m3
  m3 := u.m1 * v.m2 + u.m3 * v.m3
  m4 := u.m0 * v.m4 + u.m2 * v.m5 + u.m4
  m5 := u.m1 * v.m4 + u.m3 * v.m5 + u.m5

/-- The pdf.js viewport transform for an unrotated page of height H at
zoom z: scale by z and flip the y axis so the origin moves to the top
left. -/
def mkViewportTransform (z H : R) : Transform6 R :=
  ⟨z, 0, 0, -z, 0, H * z⟩

/-- PDF-space point to viewport-space point at zoom z on a page of height
H, exactly as extractTextItems obtains it: the translation component
(tx[4], tx[5]) of Util.transform(viewport.transform, item.transform),
which depends only on the item transform's own translation. -/
def toViewport (z H : R) (p : Pt R) : Pt R :=
  let tx := utilTransform (mkViewportTransform z H) ⟨1, 0, 0, 1, p.x, p.y⟩
  ⟨tx.m4, tx.m5⟩

/-- Viewport-space point back to PDF space: the position component of the
conversion in savePdf (pdfX = x / scale and the height - y / scale part
of pdfY).  savePdf additionally shifts the overlay baseline down by the
converted font size; that anchor adjustment is kept in overlayOps below,
not in the coordinate mapping itself. -/
def toPdf (z H : R) (v : Pt R) : Pt R :=
  ⟨v.x / z, H - v.y / z⟩

/-- JavaScript object property read: editedTextItems[key]. -/
def ledgerGet (L : Ledger R) (k : String) : Option (EditEntry R) :=
  (L.find? (fun p => p.1 == k)).map (fun p => p.2)

/-- JavaScript object property write: editedTextItems[key] = v.  An
existing key is overwritten in place, a fresh key is appended, matching
JavaScript enumeration order. -/
def ledgerSet (L : Ledger R) (k : String) (v : EditEntry R) : Ledger R :=
  if L.any (fun p => p.1 == k) then
    L.map (fun p => if p.1 == k then (k, v) else p)
  else
    L ++ [(k, v)]

/-- JavaScript property removal: delete editedTextItems[key]. -/
def ledgerDel (L : Ledger R) (k : String) : Ledger R :=
  L.filter (fun p => p.1 != k)

/-- Number of ledger entries whose key is k. -/
def countKey (L : Ledger R) (k : String) : Nat :=
  L.countP (fun p => p.1 == k)

/-- The run identity string, pageKey-i with the pre-filter source index. -/
def mkItemKey (page i : Nat) : String :=
  toString page ++ "-" ++ toString i

/-- The skip condition of the extraction loop: the JavaScript test
(not item.str, or item.str.trim() equal to the empty string) holds
exactly when every character of the string is whitespace, the empty
string included. -/
def isBlank (s : String) : Bool :=
  s.data.all (fun c => c.isWhitespace)

/-- The body of the extraction loop for the source item at pre-filter
index i: the positioned TextRun extractTextItems pushes. -/
def runFromItem (sq : R → R) (pageNum : Nat) (vt : Transform6 R) (vscale : R)
    (L : Ledger R) (i : Nat) (item : SrcTextItem R) : TextRun R :=
  let tx := utilTransform vt item.transform
  let x := tx.m4
  let y := tx.m5
  let fontSize := sq (tx.m2 * tx.m2 + tx.m3 * tx.m3)
  let width := item.width * vscale
  let height := item.height * vscale
  let itemKey := mkItemKey pageNum i
  let edited := ledgerGet L itemKey
  { id := itemKey
    index := i
    originalText := item.str
    text := match edited with
      | some e => e.text
      | none => item.str
    x := x
    y := y - height
    width := width
    height := max height fontSize
    fontSize := fontSize
    page := pageNum
    isEdited := edited.isSome
    fontName := if item.fontName = "" then helveticaName else item.fontName
    pdfX := item.transform.m4
    pdfY := item.transform.m5
    pdfFontSize := sq (item.transform.m2 * item.transform.m2 +
      item.transform.m3 * item.transform.m3)
    pdfWidth := item.width
    pdfHeight := item.height }

/-- The extraction loop: walks the source items carrying the pre-filter
index i, skipping items whose text is empty or all whitespace. -/
def extractTextItemsAux (sq : R → R) (pageNum : Nat) (vt : Transform6 R)
    (vscale : R) (L : Ledger R) : Nat → List (SrcTextItem R) → List (TextRun R)
  | _, [] => []
  | i, item :: rest =>
    if isBlank item.str then
      extractTextItemsAux sq pageNum vt vscale L (i + 1) rest
    else
      runFromItem sq pageNum vt vscale L i item ::
        extractTextItemsAux sq pageNum vt vscale L (i + 1) rest

/-- extractTextItems for one page: the viewport is the one the rasterizer
built for that page at zoom z (page height H), and the walk starts at
source index 0. -/
def extractTextItems (sq : R → R) (pageNum : Nat) (z H : R) (L : Ledger R)
    (items : List (SrcTextItem R)) : List (TextRun R) :=
  extractTextItemsAux sq pageNum (mkViewportTransform z H) z L 0 items

/-- The ledger entry finishEditingTextItem stores for an edited run. -/
def entryOfItem (item : TextRun R) : EditEntry R where
  text := item.text
  originalText := item.originalText
  pdfX := item.pdfX
  pdfY := item.pdfY
  pdfFontSize := item.pdfFontSize
  pdfWidth := item.pdfWidth
  pdfHeight := item.pdfHeight
  fontName := item.fontName
  page := item.page

/-- finishEditingTextItem: leave inline editing; if the text differs from
the original, upsert a ledger entry freezing the original PDF geometry,
otherwise mark unedited and delete any entry for this run id. -/
def finishEditingTextItem (item : TextRun R) (L : Ledger R) :
    TextRun R × Ledger R :=
  let item1 : TextRun R := { item with isEditing := false }
  if item1.text ≠ item1.originalText then
    ({ item1 with isEdited := true }, ledgerSet L item1.id (entryOfItem item1))
  else
    ({ item1 with isEdited := false }, ledgerDel L item1.id)

/-- revertTextItem: put the original text back, clear the edited flag,
delete the ledger entry, clear the selection. -/
def revertTextItem (item : TextRun R) (L : Ledger R)
    (_selected : Option String) : TextRun R × Ledger R × Option String :=
  ({ item with text := item.originalText, isEdited := false },
    ledgerDel L item.id, none)

/-- prevPage: decrement the page when above 1, otherwise do nothing. -/
def prevPage (s : SessionState R) : SessionState R :=
  if 1 < s.currentPage then
    { s with currentPage := s.currentPage - 1, selectedTextItem := none }
  else s

/-- nextPage: increment the page when below the last, otherwise nothing. -/
def nextPage (s : SessionState R) : SessionState R :=
  if s.currentPage < s.totalPages then
    { s with currentPage := s.currentPage + 1, selectedTextItem := none }
  else s

/-- A page-navigation request. -/
inductive NavOp where
  | prev
  | next
  deriving DecidableEq

/-- Run a sequence of page-navigation requests. -/
def applyNav : List NavOp → SessionState R → SessionState R
  | [], s => s
  | NavOp.prev :: rest, s => applyNav rest (prevPage s)
  | NavOp.next :: rest, s => applyNav rest (nextPage s)

/-- handleFileUpload: read the file, remember its name and bytes, then
parse with the document model; on parse failure only the loading flag is
restored (the catch block merely reports), on success the document is
installed and overlays, edits, extracted items and selection are reset. -/
def handleFileUpload (loadDoc : List Nat → Option (List (R × R)))
    (file : Option FileInput) (s : SessionState R) : SessionState R :=
  match file with
  | none => s
  | some f =>
    let s1 : SessionState R :=
      { s with isLoading := true, fileName := f.name, pdfBytes := some f.bytes }
    match loadDoc f.bytes with
    | none => { s1 with isLoading := false }
    | some pages =>
      { s1 with
        pdfDocLoaded := true
        totalPages := pages.length
        textOverlays := []
        editedTextItems := []
        existingTextItems := []
        selectedTextItem := none
        isLoading := false }

/-- The numeric value of one hex digit, as JavaScript parseInt(-, 16)
reads a character (the inputs of the component are well-formed #rrggbb
strings, so the malformed-digit case never arises). -/
def hexDigitVal (c : Char) : Nat :=
  if c.isDigit then c.toNat - 48
  else if 'a' ≤ c ∧ c ≤ 'f' then c.toNat - 97 + 10
  else if 'A' ≤ c ∧ c ≤ 'F' then c.toNat - 65 + 10
  else 0

/-- Remove the first occurrence of a character, which is what the
JavaScript string replace with a one-character pattern does. -/
def removeFirstChar (c : Char) : List Char → List Char
  | [] => []
  | x :: xs => if x = c then xs else x :: removeFirstChar c xs

/-- parseInt(hex.substring(i, i + 2), 16) on a well-formed hex string. -/
def hexPairVal (cs : List Char) (i : Nat) : Nat :=
  16 * hexDigitVal (cs.getD i '0') + hexDigitVal (cs.getD (i + 1) '0')

/-- The color-parsing block of savePdf: strip the hash, read the three
channel pairs, divide each by 255. -/
def parseHexColor (s : String) : Col R :=
  let cs := removeFirstChar '#' s.toList
  ⟨(hexPairVal cs 0 : R) / 255, (hexPairVal cs 2 : R) / 255,
    (hexPairVal cs 4 : R) / 255⟩

/-- The two drawing commands savePdf issues for one ledger entry: the
opaque white covering rectangle (padding 1, ascent the recorded
pdfHeight, descent from the substitute font metrics at the recorded
size), then the replacement text at the frozen baseline in black. -/
def editEntryOps (font : EmbFont R) (e : EditEntry R) : List (DrawOp R) :=
  let rectPadding : R := 1
  let ascent := e.pdfHeight
  let fontTotalHeight := font.heightAtSize e.pdfFontSize
  let fontAscentHeight := font.heightAtSizeNoDescender e.pdfFontSize
  let descent := fontTotalHeight - fontAscentHeight
  [DrawOp.rect e.page (e.pdfX - rectPadding) (e.pdfY - descent - rectPadding)
      (e.pdfWidth + rectPadding * 2) (ascent + descent + rectPadding * 2)
      ⟨1, 1, 1⟩,
    DrawOp.text e.page e.text e.pdfX e.pdfY e.pdfFontSize helveticaName
      ⟨0, 0, 0⟩]

/-- The ledger pass of savePdf: for each entry, in map-enumeration order,
fetch the entry's page from the fresh document (getPage throws out of
range, which aborts the whole save) and emit its two draw commands. -/
def applyEditOps (font : EmbFont R) (pages : List (R × R)) :
    Ledger R → Option (List (DrawOp R))
  | [] => some []
  | (_, e) :: rest =>
    match pages[e.page - 1]? with
    | none => none
    | some _ =>
      (applyEditOps font pages rest).map (fun ops => editEntryOps font e ++ ops)

/-- The drawing commands savePdf issues for one overlay on a page of
height H at the zoom active at save time: convert position and font size
to PDF units, then optionally the background rectangle, then the text. -/
def overlayOps (H zoom : R) (o : Overlay R) : List (DrawOp R) :=
  let pdfX := o.x / zoom
  let pdfFontSize := o.fontSize / zoom
  let pdfY := H - o.y / zoom - pdfFontSize
  let textCol := parseHexColor o.color
  let bgOps : List (DrawOp R) :=
    if o.bgEnabled then
      let bgCol := parseHexColor o.backgroundColor
      let rectWidth := o.bgWidth / zoom
      let rectHeight := o.bgHeight / zoom
      [DrawOp.rect o.page pdfX (pdfY - (rectHeight - pdfFontSize))
        rectWidth rectHeight bgCol]
    else []
  bgOps ++ [DrawOp.text o.page o.text pdfX pdfY pdfFontSize helveticaName textCol]

/-- The overlay pass of savePdf: for each overlay, fetch its page (again
fatal when absent, via getPage) and emit its draw commands using that
page's own height. -/
def applyOverlayOps (pages : List (R × R)) (zoom : R) :
    List (Overlay R) → Option (List (DrawOp R))
  | [] => some []
  | o :: rest =>
    match pages[o.page - 1]? with
    | none => none
    | some pg =>
      (applyOverlayOps pages zoom rest).map (fun ops => overlayOps pg.2 zoom o ++ ops)

/-- savePdf: bail out if no document is loaded; otherwise re-parse the
original bytes into a fresh document (loadDoc abstracts
PDFDocument.load, returning the page sizes), replay the ledger pass then
the overlay pass, and either return all draw commands or, on any
failure, nothing.  The try/catch/finally of the source only reports the
error and clears the loading flag; no session field is written. -/
def savePdf (font : EmbFont R) (loadDoc : List Nat → Option (List (R × R)))
    (s : SessionState R) : SessionState R × Option (List (DrawOp R)) :=
  if s.pdfDocLoaded = false then (s, none)
  else
    let result : Option (List (DrawOp R)) :=
      match s.pdfBytes.bind loadDoc with
      | none => none
      | some pages =>
        match applyEditOps font pages s.editedTextItems with
        | none => none
        | some edOps =>
          match applyOverlayOps pages s.scale s.textOverlays with
          | none => none
          | some ovOps => some (edOps ++ ovOps)
    ({ s with isLoading := false }, result)

end Ops

/-- Substitute-font metrics used in concrete save examples: total height
equal to the size and ascent three quarters of it. -/
def c1font : EmbFont ℚ :=
  ⟨fun s => s, fun s => s * 3 / 4⟩

/-- A concrete ledger entry for save examples. -/
def c1entry : EditEntry ℚ where
  text := "Invoice 002"
  originalText := "Invoice 001"
  pdfX := 50
  pdfY := 700
  pdfFontSize := 12
  pdfWidth := 60
  pdfHeight := 10
  fontName := "F1"
  page := 1

/-- A loaded session holding exactly one pending edit. -/
def c1state : SessionState ℚ :=
  { initSession with
    pdfDocLoaded := true
    pdfBytes := some [1]
    editedTextItems := [(mkItemKey 1 0, c1entry)] }

/-- A document model that parses to a single US-letter page. -/
def c1load : List Nat → Option (List (ℚ × ℚ)) :=
  fun _ => some [(612, 792)]

/-- The draw commands the save of c1state produces. -/
def c1ops : List (DrawOp ℚ) :=
  (editEntryOps c1font c1entry ++ []) ++ []

/-- A concrete edited run whose text differs from its original. -/
def c3run : TextRun ℚ where
  id := mkItemKey 1 0
  index := 0
  originalText := "A"
  text := "B"
  x := 10
  y := 20
  width := 30
  height := 12
  fontSize := 12
  page := 1
  isEdited := false
  fontName := "F1"
  pdfX := 50
  pdfY := 700
  pdfFontSize := 12
  pdfWidth := 30
  pdfHeight := 10
  isEditing := true

/-- A concrete source text item for extraction examples. -/
def c4item : SrcTextItem ℚ where
  str := "Hi"
  transform := ⟨12, 0, 0, 12, 50, 700⟩
  width := 30
  height := 10
  fontName := "F1"

/-- The run extraction builds from c4item at zoom 1 on a page of
height 100 (with the identity standing in for the square root). -/
def c4run : TextRun ℚ :=
  runFromItem (fun q => q) 1 (mkViewportTransform 1 100) 1 [] 0 c4item

/-- The overlay of the spec's Scenario B: screen (100, 200), font size
16, defaults otherwise. -/
def c7overlay : Overlay ℚ where
  id := 1
  x := 100
  y := 200
  text := "New text"
  fontSize := 16
  color := "#000000"
  backgroundColor := "#ffffff"
  bgEnabled := true
  bgWidth := 120
  bgHeight := 22
  page := 1
  isEditing := false

/-- A loaded session at zoom 1.5 holding the Scenario B overlay. -/
def c7state : SessionState ℚ :=
  { initSession with
    pdfDocLoaded := true
    pdfBytes := some [2]
    scale := 3 / 2
    textOverlays := [c7overlay] }

/-- A document model that parses to a single page of height 792. -/
def c7load : List Nat → Option (List (ℚ × ℚ)) :=
  fun _ => some [(612, 792)]

/-- The draw commands the save of c7state produces. -/
def c7ops : List (DrawOp ℚ) :=
  [] ++ (overlayOps 792 (3 / 2) c7overlay ++ [])

/-- Substitute-font metrics for the overlay save example. -/
def c7font : EmbFont ℚ :=
  ⟨fun s => s * 6 / 5, fun s => s⟩

/-- A concrete unedited run: current text equals original text. -/
def c8run : TextRun ℚ where
  id := mkItemKey 2 5
  index := 5
  originalText := "Keep"
  text := "Keep"
  x := 1
  y := 2
  width := 3
  height := 4
  fontSize := 4
  page := 2
  isEdited := false
  fontName := "F2"
  pdfX := 9
  pdfY := 8
  pdfFontSize := 4
  pdfWidth := 3
  pdfHeight := 4
  isEditing := false

/-- A loaded two-page session sitting on page 1. -/
def c10state : SessionState ℚ :=
  { initSession with totalPages := 2 }

section LedgerLemmas

variable {R : Type}

theorem ledgerGet_eq_none_iff (L : Ledger R) (k : String) :
    ledgerGet L k = none ↔ ∀ p ∈ L, p.1 ≠ k := by
  unfold ledgerGet
  simp [List.find?_eq_none]

theorem ledgerDel_of_get_none {L : Ledger R} {k : String}
    (h : ledgerGet L k = none) : ledgerDel L k = L := by
  unfold ledgerDel
  rw [List.filter_eq_self]
  intro p hp
  have hne := (ledgerGet_eq_none_iff L k).mp h p hp
  simpa [bne_iff_ne] using hne

theorem ledgerGet_del (L : Ledger R) (k : String) :
    ledgerGet (ledgerDel L k) k = none := by
  rw [ledgerGet_eq_none_iff]
  intro p hp
  unfold ledgerDel at hp
  have h2 := List.mem_filter.mp hp
  simpa [bne_iff_ne] using h2.2

theorem ledgerDel_idem (L : Ledger R) (k : String) :
    ledgerDel (ledgerDel L k) k = ledgerDel L k :=
  ledgerDel_of_get_none (ledgerGet_del L k)

theorem find?_append_of_none {A : Type} {f : A → Bool} {l1 l2 : List A}
    (h : l1.find? f = none) : (l1 ++ l2).find? f = l2.find? f := by
  induction l1 with
  | nil => rfl
  | cons a l ih =>
    rw [List.cons_append]
    cases hf : f a with
    | true =>
      rw [List.find?_cons_of_pos _ hf] at h
      exact absurd h (by simp)
    | false =>
      rw [List.find?_cons_of_neg _ (by simp [hf])] at h
      rw [List.find?_cons_of_neg _ (by simp [hf])]
      exact ih h

theorem find?_map_set (L : Ledger R) (k : String) (v : EditEntry R)
    (h : L.any (fun p => p.1 == k) = true) :
    (L.map (fun p => if p.1 == k then (k, v) else p)).find?
      (fun p => p.1 == k) = some (k, v) := by
  induction L with
  | nil => simp at h
  | cons p rest ih =>
    rw [List.map_cons]
    by_cases hp : p.1 = k
    · rw [if_pos (by simp [hp]), List.find?_cons_of_pos _ (by simp)]
    · rw [if_neg (by simp [hp]), List.find?_cons_of_neg _ (by simp [hp])]
      exact ih (by simpa [List.any_cons, hp] using h)

theorem ledgerGet_set_self (L : Ledger R) (k : String) (v : EditEntry R) :
    ledgerGet (ledgerSet L k v) k = some v := by
  unfold ledgerSet ledgerGet
  split
  · next h => rw [find?_map_set L k v h]; rfl
  · next h =>
    rw [Bool.not_eq_true] at h
    have hnone : L.find? (fun p => p.1 == k) = none := by
      rw [List.find?_eq_none]
      exact List.any_eq_false.mp h
    rw [find?_append_of_none hnone, List.find?_cons_of_pos _ (by simp)]
    rfl

theorem countKey_map_set (L : Ledger R) (k : String) (v : EditEntry R) :
    countKey (L.map fun p => if p.1 == k then (k, v) else p) k
      = countKey L k := by
  unfold countKey
  induction L with
  | nil => rfl
  | cons p rest ih =>
    rw [List.map_cons, List.countP_cons, List.countP_cons, ih]
    by_cases hp : p.1 = k <;> simp [hp]

theorem countKey_eq_zero_of_any_false {L : Ledger R} {k : String}
    (h : L.any (fun p => p.1 == k) = false) : countKey L k = 0 := by
  unfold countKey
  rw [List.countP_eq_zero]
  exact List.any_eq_false.mp h

theorem countKey_eq_one_of_mem_nodup {L : Ledger R} {k : String}
    (hany : L.any (fun p => p.1 == k) = true)
    (hnd : (L.map Prod.fst).Nodup) : countKey L k = 1 := by
  induction L with
  | nil => simp at hany
  | cons p rest ih =>
    rw [List.map_cons, List.nodup_cons] at hnd
    unfold countKey
    rw [List.countP_cons]
    by_cases hp : p.1 = k
    · have hzero : rest.countP (fun p => p.1 == k) = 0 := by
        rw [List.countP_eq_zero]
        intro q hq hqk
        have hqk' : q.1 = k := by simpa using hqk
        have hmem : p.1 ∈ rest.map Prod.fst := by
          rw [hp, ← hqk']
          exact List.mem_map_of_mem Prod.fst hq
        exact hnd.1 hmem
      simp [hp, hzero]
    · have hany' : rest.any (fun p => p.1 == k) = true := by
        simpa [List.any_cons, hp] using hany
      have hone := ih hany' hnd.2
      unfold countKey at hone
      simp [hp, hone]

theorem countKey_set_eq_one (L : Ledger R) (k : String) (v : EditEntry R)
    (hnd : (L.map Prod.fst).Nodup) : countKey (ledgerSet L k v) k = 1 := by
  unfold ledgerSet
  split
  · next h => rw [countKey_map_set]; exact countKey_eq_one_of_mem_nodup h hnd
  · next h =>
    rw [Bool.not_eq_true] at h
    unfold countKey
    rw [List.countP_append]
    have hz := countKey_eq_zero_of_any_false h
    unfold countKey at hz
    rw [hz]
    simp

end LedgerLemmas

section ClaimsA

variable {R : Type} [LinearOrderedField R]

/-- C3: after finishEditingTextItem (the commit of an edit interaction)
on any run: if the run's current text differs from its original text the
ledger holds exactly one entry for that run id, capturing the new text,
the frozen original geometry (pdfX, pdfY, pdfFontSize, pdfWidth,
pdfHeight) and the page; if the current text equals the original text no
ledger entry exists for that run id afterwards. -/
theorem finishEditing_ledger (item : TextRun R) (L : Ledger R)
    (hnd : (L.map Prod.fst).Nodup) :
    (item.text ≠ item.originalText →
      ledgerGet (finishEditingTextItem item L).2 item.id =
        some { text := item.text
               originalText := item.originalText
               pdfX := item.pdfX
               pdfY := item.pdfY
               pdfFontSize := item.pdfFontSize
               pdfWidth := item.pdfWidth
               pdfHeight := item.pdfHeight
               fontName := item.fontName
               page := item.page } ∧
      countKey (finishEditingTextItem item L).2 item.id = 1) ∧
    (item.text = item.originalText →
      ledgerGet (finishEditingTextItem item L).2 item.id = none) := by
  unfold finishEditingTextItem
  constructor
  · intro hne
    rw [if_pos hne]
    exact ⟨ledgerGet_set_self L item.id _, countKey_set_eq_one L item.id _ hnd⟩
  · intro heq
    rw [if_neg (not_not_intro heq)]
    exact ledgerGet_del L item.id

/-- C3 witness: committing the concretely edited run c3run against an
empty ledger stores exactly one entry with its new text and frozen
geometry. -/
theorem finishEditing_ledger_w :
    ledgerGet (finishEditingTextItem c3run ([] : Ledger ℚ)).2 c3run.id =
      some { text := c3run.text
             originalText := c3run.originalText
             pdfX := c3run.pdfX
             pdfY := c3run.pdfY
             pdfFontSize := c3run.pdfFontSize
             pdfWidth := c3run.pdfWidth
             pdfHeight := c3run.pdfHeight
             fontName := c3run.fontName
             page := c3run.page } ∧
    countKey (finishEditingTextItem c3run ([] : Ledger ℚ)).2 c3run.id = 1 :=
  (finishEditing_ledger c3run [] (by simp)).1 (by decide)

/-- C8: revertTextItem puts the original text back and removes the
ledger entry; it is idempotent on the full (run, ledger, selection)
state; and on an unedited run (current text already original, edited
flag clear, no ledger entry) it changes neither the run nor the
ledger. -/
theorem revertTextItem_spec (item : TextRun R) (L : Ledger R)
    (sel : Option String) :
    (revertTextItem item L sel).1.text = item.originalText ∧
    ledgerGet (revertTextItem item L sel).2.1 item.id = none ∧
    revertTextItem (revertTextItem item L sel).1
        (revertTextItem item L sel).2.1 (revertTextItem item L sel).2.2 =
      revertTextItem item L sel ∧
    (item.text = item.originalText ∧ item.isEdited = false ∧
        ledgerGet L item.id = none →
      (revertTextItem item L sel).1 = item ∧
        (revertTextItem item L sel).2.1 = L) := by
  refine ⟨rfl, ledgerGet_del L item.id, ?_, ?_⟩
  · unfold revertTextItem
    rw [Prod.mk.injEq, Prod.mk.injEq]
    exact ⟨rfl, ledgerDel_idem L item.id, rfl⟩
  · rintro ⟨h1, h2, h3⟩
    constructor
    · unfold revertTextItem
      obtain ⟨i1, i2, i3, i4, i5, i6, i7, i8, i9, i10, i11, i12, i13, i14,
        i15, i16, i17, i18⟩ := item
      simp only at h1 h2
      subst h1
      subst h2
      rfl
    · exact ledgerDel_of_get_none h3

/-- C8 witness: reverting the concrete unedited run c8run with an empty
ledger leaves the run and the ledger unchanged. -/
theorem revertTextItem_spec_w :
    (revertTextItem c8run ([] : Ledger ℚ) (some (mkItemKey 2 5))).1 = c8run ∧
    (revertTextItem c8run ([] : Ledger ℚ) (some (mkItemKey 2 5))).2.1 = [] :=
  (revertTextItem_spec c8run [] (some (mkItemKey 2 5))).2.2.2 ⟨rfl, rfl, rfl⟩

/-- C5: savePdf is atomic with respect to session state: whatever its
outcome, the edit ledger and the overlay store are unchanged, and a
second save on the post-save state produces the same patch as the
first. -/
theorem savePdf_atomic (font : EmbFont R)
    (loadDoc : List Nat → Option (List (R × R))) (s : SessionState R) :
    (savePdf font loadDoc s).1.editedTextItems = s.editedTextItems ∧
    (savePdf font loadDoc s).1.textOverlays = s.textOverlays ∧
    (savePdf font loadDoc (savePdf font loadDoc s).1).2 =
      (savePdf font loadDoc s).2 := by
  by_cases h : s.pdfDocLoaded = false <;>
    simp [savePdf, h]

/-- C9 counterexample: loading a malformed file into a fresh session
fails, yet the resulting session is not the pre-load default: the file
name and the byte buffer reflect the failed load. -/
theorem handleFileUpload_failure_cex :
    (handleFileUpload (fun _ => none) (some ⟨"bad.pdf", [1, 2, 3]⟩)
        (initSession (R := ℚ))).fileName = "bad.pdf" ∧
    (initSession (R := ℚ)).fileName = "" ∧
    (handleFileUpload (fun _ => none) (some ⟨"bad.pdf", [1, 2, 3]⟩)
        (initSession (R := ℚ))).pdfBytes = some [1, 2, 3] ∧
    (initSession (R := ℚ)).pdfBytes = none :=
  ⟨rfl, rfl, rfl, rfl⟩

/-- C9 (amended): when loading fails on malformed bytes, the document
handle, page count, ledger, overlays, extracted runs and selection are
all left as they were before the attempt (they are only reset on a
successful load), but the file name and the byte buffer are updated to
the failed file's name and bytes, and the loading flag is cleared. -/
theorem handleFileUpload_failure (loadDoc : List Nat → Option (List (R × R)))
    (f : FileInput) (s : SessionState R) (hfail : loadDoc f.bytes = none) :
    handleFileUpload loadDoc (some f) s =
      { s with
        isLoading := false
        fileName := f.name
        pdfBytes := some f.bytes } := by
  unfold handleFileUpload
  dsimp only
  rw [hfail]

/-- C9 witness: the amended failure behaviour at the concrete failing
load. -/
theorem handleFileUpload_failure_w :
    handleFileUpload (fun _ => none) (some ⟨"bad.pdf", [1, 2, 3]⟩)
        (initSession (R := ℚ)) =
      { initSession (R := ℚ) with
        isLoading := false
        fileName := "bad.pdf"
        pdfBytes := some [1, 2, 3] } :=
  handleFileUpload_failure (fun _ => none) ⟨"bad.pdf", [1, 2, 3]⟩
    (initSession (R := ℚ)) rfl

/-- Navigation preserves the page-bounds invariant and the total page
count. -/
theorem applyNav_inv (ops : List NavOp) : ∀ s : SessionState R,
    1 ≤ s.currentPage → s.currentPage ≤ s.totalPages →
    1 ≤ (applyNav ops s).currentPage ∧
      (applyNav ops s).currentPage ≤ (applyNav ops s).totalPages ∧
      (applyNav ops s).totalPages = s.totalPages := by
  induction ops with
  | nil => exact fun s h1 h2 => ⟨h1, h2, rfl⟩
  | cons op rest ih =>
    intro s h1 h2
    cases op with
    | prev =>
      have hp : 1 ≤ (prevPage s).currentPage ∧
          (prevPage s).currentPage ≤ (prevPage s).totalPages ∧
          (prevPage s).totalPages = s.totalPages := by
        unfold prevPage
        split <;> simp_all <;> omega
      obtain ⟨a, b, c⟩ := ih (prevPage s) hp.1 hp.2.1
      exact ⟨a, b, by rw [show applyNav (NavOp.prev :: rest) s =
        applyNav rest (prevPage s) from rfl] at *; rw [c, hp.2.2]⟩
    | next =>
      have hp : 1 ≤ (nextPage s).currentPage ∧
          (nextPage s).currentPage ≤ (nextPage s).totalPages ∧
          (nextPage s).totalPages = s.totalPages := by
        unfold nextPage
        split <;> simp_all <;> omega
      obtain ⟨a, b, c⟩ := ih (nextPage s) hp.1 hp.2.1
      exact ⟨a, b, by rw [show applyNav (NavOp.next :: rest) s =
        applyNav rest (nextPage s) from rfl] at *; rw [c, hp.2.2]⟩

/-- C10: starting on page 1 of a document with at least one page, any
sequence of prevPage and nextPage requests keeps the current page within
1 and the page count; prevPage at page 1 and nextPage at the last page
are no-ops. -/
theorem nav_page_bounds (s : SessionState R) (ops : List NavOp)
    (h1 : s.currentPage = 1) (h2 : 1 ≤ s.totalPages) :
    (1 ≤ (applyNav ops s).currentPage ∧
      (applyNav ops s).currentPage ≤ s.totalPages) ∧
    (∀ t : SessionState R, t.currentPage = 1 → prevPage t = t) ∧
    (∀ t : SessionState R, t.currentPage = t.totalPages → nextPage t = t) := by
  obtain ⟨a, b, c⟩ := applyNav_inv ops s (by omega) (by omega)
  refine ⟨⟨a, by rw [← c]; exact b⟩, ?_, ?_⟩
  · intro t ht
    unfold prevPage
    rw [if_neg (by omega)]
  · intro t ht
    unfold nextPage
    rw [if_neg (by omega)]

/-- C10 witness: on the concrete two-page session, going next, next,
prev from page 1 stays within bounds. -/
theorem nav_page_bounds_w :
    1 ≤ (applyNav [NavOp.next, NavOp.next, NavOp.prev] c10state).currentPage ∧
    (applyNav [NavOp.next, NavOp.next, NavOp.prev] c10state).currentPage ≤
      c10state.totalPages :=
  (nav_page_bounds c10state [NavOp.next, NavOp.next, NavOp.prev]
    rfl (by decide)).1

/-- C6: for every point, every positive zoom and every page height, the
viewport-to-PDF conversion undoes the PDF-to-viewport conversion
exactly. -/
theorem toPdf_toViewport (p : Pt R) (z H : R) (hz : 0 < z) :
    toPdf z H (toViewport z H p) = p := by
  have hz' : z ≠ 0 := ne_of_gt hz
  obtain ⟨px, py⟩ := p
  simp only [toViewport, toPdf, utilTransform, mkViewportTransform]
  rw [Pt.mk.injEq]
  constructor <;> field_simp

/-- C6 witness: the round trip at the concrete point (3, 4), zoom 2,
page height 792. -/
theorem toPdf_toViewport_w :
    toPdf (2 : ℚ) 792 (toViewport 2 792 ⟨3, 4⟩) = ⟨3, 4⟩ :=
  toPdf_toViewport ⟨3, 4⟩ 2 792 (by decide)

end ClaimsA

section ClaimsB

variable {R : Type} [LinearOrderedField R]

/-- The projection of an extracted run to the viewport-independent
fields the ledger cares about: identity, edited flag, current text. -/
theorem extractAux_proj_indep (sq : R → R) (p : Nat) (L : Ledger R)
    (vt1 vt2 : Transform6 R) (vs1 vs2 : R) :
    ∀ (items : List (SrcTextItem R)) (i : Nat),
      (extractTextItemsAux sq p vt1 vs1 L i items).map
          (fun r => (r.id, r.isEdited, r.text)) =
        (extractTextItemsAux sq p vt2 vs2 L i items).map
          (fun r => (r.id, r.isEdited, r.text)) := by
  intro items
  induction items with
  | nil => intro i; rfl
  | cons item rest ih =>
    intro i
    simp only [extractTextItemsAux]
    by_cases h : isBlank item.str = true
    · rw [if_pos h, if_pos h]
      exact ih (i + 1)
    · rw [if_neg h, if_neg h, List.map_cons, List.map_cons, ih (i + 1)]
      rfl

/-- Every run produced by the extraction walk starting at index i comes
from a non-whitespace source item at some offset j, carries the
pre-filter index i + j as its identity, keeps that item's text as its
original text, and derives its PDF font size from positions 2 and 3 of
that item's transform. -/
theorem extractAux_mem_spec (sq : R → R) (p : Nat) (vt : Transform6 R)
    (vs : R) (L : Ledger R) :
    ∀ (items : List (SrcTextItem R)) (i : Nat) (r : TextRun R),
      r ∈ extractTextItemsAux sq p vt vs L i items →
      r.id = mkItemKey p r.index ∧
      ∃ j it, r.index = i + j ∧ items[j]? = some it ∧
        isBlank it.str = false ∧ r.originalText = it.str ∧
        r.pdfFontSize = sq (it.transform.m2 * it.transform.m2 +
          it.transform.m3 * it.transform.m3) := by
  intro items
  induction items with
  | nil =>
    intro i r hr
    simp [extractTextItemsAux] at hr
  | cons item rest ih =>
    intro i r hr
    simp only [extractTextItemsAux] at hr
    by_cases h : isBlank item.str = true
    · rw [if_pos h] at hr
      obtain ⟨hid, j, it, hidx, hget, hns, hot, hfs⟩ := ih (i + 1) r hr
      exact ⟨hid, j + 1, it, by omega, by simpa using hget, hns, hot, hfs⟩
    · rw [if_neg h] at hr
      rcases List.mem_cons.mp hr with heq | hmem
      · subst heq
        exact ⟨rfl, 0, item, rfl, by simp, by simpa using h, rfl, rfl⟩
      · obtain ⟨hid, j, it, hidx, hget, hns, hot, hfs⟩ := ih (i + 1) r hmem
        exact ⟨hid, j + 1, it, by omega, by simpa using hget, hns, hot, hfs⟩

/-- C4: extraction of the same page of the same document instance at two
different zoom values under the same ledger yields runs with the same
identities, edited flags and current texts; and every run's identity is
built from the pre-filter source index of a non-whitespace item whose
text it carries. -/
theorem extract_zoom_stable (sq : R → R) (page : Nat)
    (items : List (SrcTextItem R)) (L : Ledger R) (z1 z2 H : R) :
    ((extractTextItems sq page z1 H L items).map
        (fun r => (r.id, r.isEdited, r.text)) =
      (extractTextItems sq page z2 H L items).map
        (fun r => (r.id, r.isEdited, r.text))) ∧
    (∀ r ∈ extractTextItems sq page z1 H L items,
      r.id = mkItemKey page r.index ∧
      ∃ it, items[r.index]? = some it ∧ isBlank it.str = false ∧
        r.originalText = it.str) := by
  constructor
  · exact extractAux_proj_indep sq page L (mkViewportTransform z1 H)
      (mkViewportTransform z2 H) z1 z2 items 0
  · intro r hr
    obtain ⟨hid, j, it, hidx, hget, hns, hot, _⟩ :=
      extractAux_mem_spec sq page (mkViewportTransform z1 H) z1 L items 0 r hr
    have hj : r.index = j := by omega
    exact ⟨hid, it, by rw [hj]; exact hget, hns, hot⟩

/-- C4 witness: extracting the concrete item c4item at zooms 1 and 2
agrees on identity, edited flag and text, and the produced run c4run is
keyed by its pre-filter index. -/
theorem extract_zoom_stable_w :
    ((extractTextItems (fun q : ℚ => q) 1 1 100 [] [c4item]).map
        (fun r => (r.id, r.isEdited, r.text)) =
      (extractTextItems (fun q : ℚ => q) 1 2 100 [] [c4item]).map
        (fun r => (r.id, r.isEdited, r.text))) ∧
    (c4run.id = mkItemKey 1 c4run.index ∧
      ∃ it, [c4item][c4run.index]? = some it ∧ isBlank it.str = false ∧
        c4run.originalText = it.str) :=
  ⟨(extract_zoom_stable (fun q : ℚ => q) 1 [c4item] [] 1 2 100).1,
    (extract_zoom_stable (fun q : ℚ => q) 1 [c4item] [] 1 2 100).2 c4run
      (List.mem_cons_self _ _)⟩

/-- C2 (amended): every extracted run derives its pdfFontSize from
entries 2 and 3 of its source item's transform, that is sqrt of c
squared plus d squared for a transform written as a b c d e f, not from
entries 0 and 1. -/
theorem extract_pdfFontSize (items : List (SrcTextItem ℝ)) (page : Nat)
    (z H : ℝ) (L : Ledger ℝ) (r : TextRun ℝ)
    (hr : r ∈ extractTextItems Real.sqrt page z H L items) :
    ∃ it, items[r.index]? = some it ∧
      r.pdfFontSize = Real.sqrt (it.transform.m2 * it.transform.m2 +
        it.transform.m3 * it.transform.m3) := by
  obtain ⟨_, j, it, hidx, hget, _, _, hfs⟩ :=
    extractAux_mem_spec Real.sqrt page (mkViewportTransform z H) z L
      items 0 r hr
  have hj : r.index = j := by omega
  exact ⟨it, by rw [hj]; exact hget, hfs⟩

/-- C2 counterexample: for the transform 1 0 0 2 0 0, the code derives
pdfFontSize sqrt of 0 squared plus 2 squared, namely 2, while sqrt of a
squared plus b squared is 1, and the two differ. -/
theorem extract_pdfFontSize_cex :
    (extractTextItems Real.sqrt 1 1 100 []
        [{ str := "A", transform := ⟨1, 0, 0, 2, 0, 0⟩, width := 10,
           height := 5, fontName := "F1" }]).map (fun r => r.pdfFontSize) =
      [2] ∧
    Real.sqrt (1 * 1 + 0 * 0) = 1 ∧ (2 : ℝ) ≠ 1 := by
  refine ⟨?_, ?_, by norm_num⟩
  · simp only [extractTextItems, extractTextItemsAux]
    rw [if_neg (by decide)]
    simp only [List.map_cons, List.map_nil]
    rw [show (runFromItem Real.sqrt 1 (mkViewportTransform (1 : ℝ) 100) 1 []
      0 { str := "A", transform := ⟨1, 0, 0, 2, 0, 0⟩, width := 10,
          height := 5, fontName := "F1" }).pdfFontSize =
        Real.sqrt (0 * 0 + 2 * 2) from rfl]
    rw [show (0 * 0 + 2 * 2 : ℝ) = 2 ^ 2 by norm_num,
      Real.sqrt_sq (by norm_num : (0 : ℝ) ≤ 2)]
  · rw [show (1 * 1 + 0 * 0 : ℝ) = 1 by norm_num, Real.sqrt_one]

/-- C2 witness: the amended statement applied to the concrete item with
transform 1 0 0 2 0 0. -/
theorem extract_pdfFontSize_w :
    ∃ it,
      [({ str := "A", transform := ⟨1, 0, 0, 2, 0, 0⟩, width := 10,
          height := 5, fontName := "F1" } : SrcTextItem ℝ)][
        (runFromItem Real.sqrt 1 (mkViewportTransform (1 : ℝ) 100) 1 [] 0
          { str := "A", transform := ⟨1, 0, 0, 2, 0, 0⟩, width := 10,
            height := 5, fontName := "F1" }).index]? = some it ∧
      (runFromItem Real.sqrt 1 (mkViewportTransform (1 : ℝ) 100) 1 [] 0
          { str := "A", transform := ⟨1, 0, 0, 2, 0, 0⟩, width := 10,
            height := 5, fontName := "F1" }).pdfFontSize =
        Real.sqrt (it.transform.m2 * it.transform.m2 +
          it.transform.m3 * it.transform.m3) :=
  extract_pdfFontSize _ 1 1 100 [] _ (by
    simp only [extractTextItems, extractTextItemsAux]
    rw [if_neg (by decide)]
    exact List.mem_cons_self _ _)

end ClaimsB

section ClaimsC

variable {R : Type} [LinearOrderedField R]

/-- The position savePdf converts an overlay to is the viewport-to-PDF
mapping of its screen position shifted down the baseline by the
converted font size: the conversion inside overlayOps is toPdf composed
with the font-size anchor adjustment. -/
theorem overlayOps_uses_toPdf (H zoom : R) (o : Overlay R) :
    (overlayOps H zoom o).getLast? =
      some (DrawOp.text o.page o.text (toPdf zoom H ⟨o.x, o.y⟩).x
        ((toPdf zoom H ⟨o.x, o.y⟩).y - o.fontSize / zoom)
        (o.fontSize / zoom) helveticaName (parseHexColor o.color)) := by
  unfold overlayOps toPdf
  by_cases h : o.bgEnabled = true <;>
    simp [h, List.getLast?_append, sub_sub]

/-- The viewport position extraction stores for a run is the
PDF-to-viewport image of the transform's translation, for any linear
part of the glyph transform: the composed translation tx4 tx5 in
runFromItem equals toViewport of (e, f). -/
theorem runFromItem_uses_toViewport (sq : R → R) (p : Nat) (z H vs : R)
    (L : Ledger R) (i : Nat) (item : SrcTextItem R) :
    (runFromItem sq p (mkViewportTransform z H) vs L i item).x =
      (toViewport z H ⟨item.transform.m4, item.transform.m5⟩).x ∧
    (runFromItem sq p (mkViewportTransform z H) vs L i item).y +
        item.height * vs =
      (toViewport z H ⟨item.transform.m4, item.transform.m5⟩).y := by
  unfold runFromItem toViewport utilTransform mkViewportTransform
  constructor <;> dsimp <;> ring

/-- Membership of an edit's two draw commands, contiguous and in order,
in the output of the ledger pass. -/
theorem applyEditOps_mem (font : EmbFont R) (pages : List (R × R)) :
    ∀ (L : Ledger R) (k : String) (e : EditEntry R) (ops : List (DrawOp R)),
      (k, e) ∈ L → applyEditOps font pages L = some ops →
      ∃ pre post, ops = pre ++ editEntryOps font e ++ post := by
  intro L
  induction L with
  | nil =>
    intro k e ops hmem
    simp at hmem
  | cons p rest ih =>
    intro k e ops hmem happ
    obtain ⟨k', e'⟩ := p
    simp only [applyEditOps] at happ
    cases hpg : pages[e'.page - 1]? with
    | none => rw [hpg] at happ; simp at happ
    | some pg =>
      rw [hpg] at happ
      obtain ⟨restOps, hrest, hops⟩ := Option.map_eq_some'.mp happ
      rcases List.mem_cons.mp hmem with heq | hmem'
      · have he : e = e' := congrArg Prod.snd heq
        subst he
        exact ⟨[], restOps, by rw [← hops]; rfl⟩
      · obtain ⟨pre, post, hpre⟩ := ih k e restOps hmem' hrest
        refine ⟨editEntryOps font e' ++ pre, post, ?_⟩
        rw [← hops, hpre]
        simp

/-- C1: whenever savePdf succeeds, its command stream contains, for
every ledger entry, first the opaque white covering rectangle at
pdfX - 1, pdfY - descent - 1 of width pdfWidth + 2 and height
ascent + descent + 2 (ascent the recorded pdfHeight, descent the
substitute font's total height minus its ascent height at the recorded
size), immediately followed by the new text drawn at the frozen
baseline in the substitute font at the recorded size in black. -/
theorem savePdf_edit_patch (font : EmbFont R)
    (loadDoc : List Nat → Option (List (R × R))) (s : SessionState R)
    (k : String) (e : EditEntry R) (ops : List (DrawOp R))
    (hmem : (k, e) ∈ s.editedTextItems)
    (hsave : (savePdf font loadDoc s).2 = some ops) :
    ∃ pre post, ops = pre ++
      [DrawOp.rect e.page (e.pdfX - 1)
          (e.pdfY - (font.heightAtSize e.pdfFontSize -
            font.heightAtSizeNoDescender e.pdfFontSize) - 1)
          (e.pdfWidth + 1 * 2)
          (e.pdfHeight + (font.heightAtSize e.pdfFontSize -
            font.heightAtSizeNoDescender e.pdfFontSize) + 1 * 2) ⟨1, 1, 1⟩,
        DrawOp.text e.page e.text e.pdfX e.pdfY e.pdfFontSize helveticaName
          ⟨0, 0, 0⟩] ++ post := by
  have hblock : ∀ pre post : List (DrawOp R),
      pre ++ editEntryOps font e ++ post = pre ++
        [DrawOp.rect e.page (e.pdfX - 1)
            (e.pdfY - (font.heightAtSize e.pdfFontSize -
              font.heightAtSizeNoDescender e.pdfFontSize) - 1)
            (e.pdfWidth + 1 * 2)
            (e.pdfHeight + (font.heightAtSize e.pdfFontSize -
              font.heightAtSizeNoDescender e.pdfFontSize) + 1 * 2)
            ⟨1, 1, 1⟩,
          DrawOp.text e.page e.text e.pdfX e.pdfY e.pdfFontSize
            helveticaName ⟨0, 0, 0⟩] ++ post :=
    fun pre post => rfl
  unfold savePdf at hsave
  by_cases hdoc : s.pdfDocLoaded = false
  · rw [if_pos hdoc] at hsave
    exact absurd hsave (by simp)
  · rw [if_neg hdoc] at hsave
    dsimp only at hsave
    cases hload : s.pdfBytes.bind loadDoc with
    | none => rw [hload] at hsave; simp at hsave
    | some pages =>
      rw [hload] at hsave
      dsimp only at hsave
      cases hed : applyEditOps font pages s.editedTextItems with
      | none => rw [hed] at hsave; simp at hsave
      | some edOps =>
        rw [hed] at hsave
        dsimp only at hsave
        cases hov : applyOverlayOps pages s.scale s.textOverlays with
        | none => rw [hov] at hsave; simp at hsave
        | some ovOps =>
          rw [hov] at hsave
          dsimp only at hsave
          have hops : edOps ++ ovOps = ops := by
            simpa using hsave
          obtain ⟨pre, post, hpre⟩ :=
            applyEditOps_mem font pages s.editedTextItems k e edOps hmem hed
          refine ⟨pre, post ++ ovOps, ?_⟩
          rw [← hblock, ← hops, hpre]
          simp

/-- C1 witness: the save of the concrete session c1state produces the
covering rectangle and replacement text for its one ledger entry. -/
theorem savePdf_edit_patch_w :
    ∃ pre post, c1ops = pre ++
      [DrawOp.rect c1entry.page (c1entry.pdfX - 1)
          (c1entry.pdfY - (c1font.heightAtSize c1entry.pdfFontSize -
            c1font.heightAtSizeNoDescender c1entry.pdfFontSize) - 1)
          (c1entry.pdfWidth + 1 * 2)
          (c1entry.pdfHeight + (c1font.heightAtSize c1entry.pdfFontSize -
            c1font.heightAtSizeNoDescender c1entry.pdfFontSize) + 1 * 2)
          ⟨1, 1, 1⟩,
        DrawOp.text c1entry.page c1entry.text c1entry.pdfX c1entry.pdfY
          c1entry.pdfFontSize helveticaName ⟨0, 0, 0⟩] ++ post :=
  savePdf_edit_patch c1font c1load c1state (mkItemKey 1 0) c1entry c1ops
    (by simp [c1state, initSession]) rfl

/-- Membership of an overlay's text command in the output of the
overlay pass, at the position and size converted with the page's own
height and the zoom active at save time. -/
theorem applyOverlayOps_mem (pages : List (R × R)) (z : R) :
    ∀ (os : List (Overlay R)) (o : Overlay R) (ops : List (DrawOp R)),
      o ∈ os → applyOverlayOps pages z os = some ops →
      ∀ W H : R, pages[o.page - 1]? = some (W, H) →
      DrawOp.text o.page o.text (o.x / z) (H - o.y / z - o.fontSize / z)
        (o.fontSize / z) helveticaName (parseHexColor o.color) ∈ ops := by
  intro os
  induction os with
  | nil =>
    intro o ops hmem
    simp at hmem
  | cons o' rest ih =>
    intro o ops hmem happ W H hpg
    simp only [applyOverlayOps] at happ
    cases hpg' : pages[o'.page - 1]? with
    | none => rw [hpg'] at happ; simp at happ
    | some pg =>
      rw [hpg'] at happ
      obtain ⟨restOps, hrest, hops⟩ := Option.map_eq_some'.mp happ
      rcases List.mem_cons.mp hmem with heq | hmem'
      · subst heq
        have hpg2 : some pg = some (W, H) := hpg'.symm.trans hpg
        injection hpg2 with hpg3
        subst hpg3
        rw [← hops]
        apply List.mem_append_left
        unfold overlayOps
        dsimp only
        apply List.mem_append_right
        exact List.mem_cons_self _ _
      · rw [← hops]
        exact List.mem_append_right _ (ih o restOps hmem' hrest W H hpg)

/-- C7: whenever savePdf succeeds, every overlay saved at zoom scale on
a page of height H has its text drawn at PDF position x over scale,
H minus y over scale minus fontSize over scale, with size fontSize over
scale; and in particular the spec's Scenario B numbers hold: screen
position 100 200 with font size 16 at zoom 1.5 on height 792 lands at
200 over 3 (about 66.67, within 0.01) and exactly 648. -/
theorem savePdf_overlay_text (font : EmbFont R)
    (loadDoc : List Nat → Option (List (R × R))) (s : SessionState R)
    (o : Overlay R) (ops : List (DrawOp R)) (pages : List (R × R)) (W H : R)
    (hmem : o ∈ s.textOverlays)
    (hload : s.pdfBytes.bind loadDoc = some pages)
    (hpage : pages[o.page - 1]? = some (W, H))
    (hsave : (savePdf font loadDoc s).2 = some ops) :
    (DrawOp.text o.page o.text (o.x / s.scale)
        (H - o.y / s.scale - o.fontSize / s.scale) (o.fontSize / s.scale)
        helveticaName (parseHexColor o.color) ∈ ops) ∧
    ((100 : R) / (3 / 2) = 200 / 3 ∧
      (792 : R) - 200 / (3 / 2) - 16 / (3 / 2) = 648 ∧
      |(200 : R) / 3 - 6667 / 100| < 1 / 100) := by
  refine ⟨?_, by norm_num, by norm_num, ?_⟩
  · unfold savePdf at hsave
    by_cases hdoc : s.pdfDocLoaded = false
    · rw [if_pos hdoc] at hsave
      exact absurd hsave (by simp)
    · rw [if_neg hdoc] at hsave
      dsimp only at hsave
      rw [hload] at hsave
      dsimp only at hsave
      cases hed : applyEditOps font pages s.editedTextItems with
      | none => rw [hed] at hsave; simp at hsave
      | some edOps =>
        rw [hed] at hsave
        dsimp only at hsave
        cases hov : applyOverlayOps pages s.scale s.textOverlays with
        | none => rw [hov] at hsave; simp at hsave
        | some ovOps =>
          rw [hov] at hsave
          dsimp only at hsave
          have hops : edOps ++ ovOps = ops := by simpa using hsave
          rw [← hops]
          exact List.mem_append_right _
            (applyOverlayOps_mem pages s.scale s.textOverlays o ovOps
              hmem hov W H hpage)
  · rw [abs_lt]
    constructor <;> norm_num

/-- C7 witness: saving the concrete session c7state draws the Scenario B
overlay's text at the converted position. -/
theorem savePdf_overlay_text_w :
    DrawOp.text c7overlay.page c7overlay.text (c7overlay.x / c7state.scale)
        ((792 : ℚ) - c7overlay.y / c7state.scale -
          c7overlay.fontSize / c7state.scale)
        (c7overlay.fontSize / c7state.scale) helveticaName
        (parseHexColor c7overlay.color) ∈ c7ops :=
  (savePdf_overlay_text c7font c7load c7state c7overlay c7ops [(612, 792)]
    612 792 (by simp [c7state, initSession]) rfl rfl rfl).1

end ClaimsC

end VibePdf
